import Mathlib

/-!
# Verification of the `tupl` tuple-trait generators

The repository generates, for every tuple arity in range, a bundle of trait
implementations: arity reporting (`Tuple`/`DynTuple`), growing
(`GrowableTuple::append`/`prepend`), head/tail access and truncation
(`NonEmptyTuple`), concatenation (`JoinableTuple`), and per-position indexing
(`IndexableTuple`).

We embed the generators shallowly:

* a tuple *type* of arity `K` is its ordered list of component identifiers
  (`List Ident`), exactly the slice the emitters receive;
* a tuple *value* is a `List α`: every emitted method body is uniform in the
  component positions, so the positional list of component values captures it;
* a panicking body is `Except.error` carrying the panic message, an impl the
  generator refuses to emit is `Option.none`.

Three generator iterations appear in the sources and are modelled separately:
the modern macro crate (`tupl-macros/src/traits.rs`, `MAX_ARITY = 32`), the
earlier macro crate (`tupl-macros/src/util.rs`, `MAX_ARITY = 50`), and the
legacy hand-written/declarative-macro crate (`src/lib.rs`, arities 0 to 50
with panicking top-arity growth and panicking empty-tuple access).
-/

namespace Tupl

/-- Type-parameter identifiers handled by the emitters. -/
abbrev Ident := String

/-! ## Modern generator (`tupl-macros/src/traits.rs`) -/

/-- `pub const MAX_ARITY: usize = 32;` in `traits.rs`. -/
def MAX_ARITY : Nat := 32

/-- The identifier list `T1, ..., T32` built by `impl_all_traits`
(`(1..=MAX_ARITY).map(|i| format_ident!("T{i}"))`). -/
def modernIdents : List Ident :=
  (List.range MAX_ARITY).map fun i => "T" ++ toString (i + 1)

/-- The `DynTuple`/`Tuple` impl pair emitted by `impl_tuple`: the body of the
runtime method `DynTuple::arity` and the constant `Tuple::ARITY` are both the
literal `Literal::usize_suffixed(idents.len())`. -/
structure TupleImpl where
  dyn_arity : Nat
  ARITY : Nat
  deriving DecidableEq

/-- `impl_tuple` from `traits.rs`. -/
def impl_tuple (idents : List Ident) : TupleImpl :=
  let arity := idents.length
  { dyn_arity := arity, ARITY := arity }

/-- The splits `idents.split_at(i)` for `i in 0..=idents.len()` at which
`impl_joinable` emits one `JoinableTuple` impl. -/
def impl_joinable_splits (idents : List Ident) : List (List Ident × List Ident) :=
  (List.range (idents.length + 1)).map fun i => (idents.take i, idents.drop i)

/-- The (left arity, right arity) pairs covered by an emitted `JoinableTuple`
impl: `impl_all_traits` runs the emitter on every prefix of `modernIdents`. -/
def joinable_arity_pairs : List (Nat × Nat) :=
  (List.range (MAX_ARITY + 1)).flatMap fun k =>
    (impl_joinable_splits (modernIdents.take k)).map fun lr => (lr.1.length, lr.2.length)

/-- Value body of `JoinableTuple::join`: destructure both operands and re-pack
left components followed by right components. -/
def join (a b : List α) : List α := a ++ b

/-- `impl_growable` from `traits.rs`: `None` exactly when
`idents.len() == MAX_ARITY`, otherwise the `GrowableTuple` impl is emitted. -/
def impl_growable (idents : List Ident) : Option Unit :=
  if idents.length = MAX_ARITY then none else some ()

/-- Value body of `GrowableTuple::append`: destructure and re-pack with
`value` at the end. -/
def append (t : List α) (v : α) : List α := t ++ [v]

/-- Value body of `GrowableTuple::prepend`: destructure and re-pack with
`value` at the front. -/
def prepend (t : List α) (v : α) : List α := v :: t

/-- Associated type `GrowableTuple::Append<T> = (#(#idents,)* T,)`. -/
def tyAppend (idents : List Ident) (T : Ident) : List Ident := idents ++ [T]

/-- Associated type `GrowableTuple::Prepend<T> = (T, #(#idents,)*)`. -/
def tyPrepend (idents : List Ident) (T : Ident) : List Ident := T :: idents

/-- Value body of `NonEmptyTuple::head`: no impl for the empty tuple, and
`&self.0` in both the unary and the `[head, rest @ .., tail]` arm of
`impl_nonempty`. -/
def head : List α → Option α
  | [] => none
  | a :: _ => some a

/-- Value body of `NonEmptyTuple::tail`: the unary arm returns the single
component, the `[head, rest @ .., tail]` arm returns `self.#tail_idx` with
`tail_idx = idents.len() - 1`. -/
def tail : List α → Option α
  | [] => none
  | [a] => some a
  | a :: b :: rest => (a :: b :: rest)[(a :: b :: rest).length - 1]?

/-- Value body of `NonEmptyTuple::truncate_head`: the unary arm yields
`(self.0, ())`, the `[head, rest @ .., tail]` arm destructures and yields
`(head, (rest..., tail))`. -/
def truncate_head : List α → Option (α × List α)
  | [] => none
  | [a] => some (a, [])
  | a :: b :: rest => some (a, b :: rest)

/-- Value body of `NonEmptyTuple::truncate_tail`: the unary arm yields
`((), self.0)`, the `[head, rest @ .., tail]` arm destructures and yields
`((head, rest...), tail)`. -/
def truncate_tail : List α → Option (List α × α)
  | [] => none
  | [a] => some ([], a)
  | a :: b :: rest =>
    some ((a :: b :: rest).dropLast, (b :: rest).getLast (List.cons_ne_nil b rest))

/-- Associated type `NonEmptyTuple::Tail`: the single identifier in the unary
arm, the last identifier in the `[head, rest @ .., tail]` arm. -/
def tyTail : List Ident → Option Ident
  | [] => none
  | [a] => some a
  | _ :: b :: rest => some ((b :: rest).getLast (List.cons_ne_nil b rest))

/-- Associated type `NonEmptyTuple::TruncateHead`: `()` in the unary arm,
`(#(#rest,)* #tail,)` in the `[head, rest @ .., tail]` arm. -/
def tyTruncateHead : List Ident → Option (List Ident)
  | [] => none
  | [_] => some []
  | _ :: b :: rest => some (b :: rest)

/-- Associated type `NonEmptyTuple::TruncateTail`: `()` in the unary arm,
`(#head, #(#rest,)*)` in the `[head, rest @ .., tail]` arm. -/
def tyTruncateTail : List Ident → Option (List Ident)
  | [] => none
  | [_] => some []
  | a :: b :: rest => some ((a :: b :: rest).dropLast)

/-- The constant positions `0..idents.len()` at which `impl_indexable` emits
one `IndexableTuple` impl (`idents.iter().enumerate()`). -/
def indexable_positions (idents : List Ident) : List Nat :=
  List.range idents.length

/-- Body of `IndexableTuple::index_ref` at constant position `i`: `&self.#index`. -/
def index_ref (t : List α) (i : Nat) : Option α := t[i]?

/-- Body of `IndexableTuple::index_mut` at constant position `i`: `&mut self.#index`. -/
def index_mut (t : List α) (i : Nat) : Option α := t[i]?

/-- Body of `IndexableTuple::into_index` at constant position `i`: `self.#index`. -/
def into_index (t : List α) (i : Nat) : Option α := t[i]?

/-! ## Earlier macro generator (`tupl-macros/src/util.rs`) -/

/-- `const MAX_ARITY: usize = 50;` in `util.rs`. -/
def UTIL_MAX_ARITY : Nat := 50

/-- `gen_idents` from `util.rs`: `T1, ..., T50`. -/
def utilIdents : List Ident :=
  (List.range UTIL_MAX_ARITY).map fun i => "T" ++ toString (i + 1)

/-- `impl_growable` from `util.rs`: `None` exactly when
`idents.len() == MAX_ARITY` (50 here), otherwise the impl is emitted. -/
def util_impl_growable (idents : List Ident) : Option Unit :=
  if idents.length = UTIL_MAX_ARITY then none else some ()

/-! ## Legacy crate (`src/lib.rs`) -/

/-- Maximum arity of the legacy crate: tuples of arity 0 to 50. -/
def LEGACY_MAX_ARITY : Nat := 50

/-- `usize::MAX`, the `ARITY` of the legacy `Infallible` sentinel impl. -/
def USIZE_MAX : Nat := 2 ^ 64 - 1

/-- A legacy type-level result: an actual tuple shape, or the `Infallible`
sentinel standing for a tuple that cannot exist. -/
inductive TyShape where
  | tuple (components : List Ident)
  | infallible
  deriving DecidableEq

/-- `Tuple::ARITY` across the legacy impls: the component count for tuple
shapes, `usize::MAX` for the `Infallible` sentinel impl. -/
def legacy_ARITY : TyShape → Nat
  | .tuple c => c.length
  | .infallible => USIZE_MAX

/-- Associated type `Tuple::Append<T>` across the legacy impls: `Infallible`
for the sentinel itself and for the arity-50 impl (`type Append<ඞ> =
Infallible;`), otherwise the tuple extended at the end. -/
def legacy_tyAppend (s : TyShape) (T : Ident) : TyShape :=
  match s with
  | .infallible => .infallible
  | .tuple c =>
    if c.length = LEGACY_MAX_ARITY then .infallible else .tuple (c ++ [T])

/-- Associated type `Tuple::Prepend<T>` across the legacy impls, symmetric to
`legacy_tyAppend`. -/
def legacy_tyPrepend (s : TyShape) (T : Ident) : TyShape :=
  match s with
  | .infallible => .infallible
  | .tuple c =>
    if c.length = LEGACY_MAX_ARITY then .infallible else .tuple (T :: c)

/-- Legacy `Tuple::head`: the `()` impl panics, every non-empty impl returns
`&self.0`. -/
def legacy_head : List α → Except String α
  | [] => .error "tried to get the head of an empty tuple"
  | a :: _ => .ok a

/-- Legacy `Tuple::head_mut`, read through the returned `&mut self.0`:
panics on `()`, position 0 otherwise. -/
def legacy_head_mut : List α → Except String α
  | [] => .error "tried to get the head of an empty tuple"
  | a :: _ => .ok a

/-- Writing a value through the reference returned by `Tuple::head_mut`
(`&mut self.0`), modelled as explicit state passing. -/
def legacy_head_mut_set : List α → α → Except String (List α)
  | [], _ => .error "tried to get the head of an empty tuple"
  | _ :: rest, v => .ok (v :: rest)

/-- Legacy `Tuple::tail`: the `()` impl panics, the unary impl returns the
single component, arity 2 returns `&self.1` and the macro arities destructure
`let (.., tail) = self`. -/
def legacy_tail : List α → Except String α
  | [] => .error "tried to get the tail of an empty tuple"
  | [a] => .ok a
  | _ :: b :: rest => .ok ((b :: rest).getLast (List.cons_ne_nil b rest))

/-- Legacy `Tuple::tail_mut`, read through the returned reference. -/
def legacy_tail_mut : List α → Except String α
  | [] => .error "tried to get the tail of an empty tuple"
  | [a] => .ok a
  | _ :: b :: rest => .ok ((b :: rest).getLast (List.cons_ne_nil b rest))

/-- Legacy `Tuple::truncate_head`: the `()` impl panics, the other impls
split off position 0. -/
def legacy_truncate_head : List α → Except String (α × List α)
  | [] => .error "tried to truncate empty tuple"
  | [a] => .ok (a, [])
  | a :: b :: rest => .ok (a, b :: rest)

/-- Legacy `Tuple::truncate_tail`: the `()` impl panics, the other impls
split off the last position. -/
def legacy_truncate_tail : List α → Except String (List α × α)
  | [] => .error "tried to truncate empty tuple"
  | [a] => .ok ([], a)
  | a :: b :: rest =>
    .ok ((a :: b :: rest).dropLast, (b :: rest).getLast (List.cons_ne_nil b rest))

/-- Legacy `Tuple::append`: the arity-50 impl panics with
`"reached maximum tuple arity"`, every lower arity moves the components and
adds `value` at the end. -/
def legacy_append (t : List α) (v : α) : Except String (List α) :=
  if t.length = LEGACY_MAX_ARITY then .error "reached maximum tuple arity"
  else .ok (t ++ [v])

/-- Legacy `Tuple::prepend`, symmetric to `legacy_append`. -/
def legacy_prepend (t : List α) (v : α) : Except String (List α) :=
  if t.length = LEGACY_MAX_ARITY then .error "reached maximum tuple arity"
  else .ok (v :: t)

/-- Legacy default method `Tuple::replace_head`:
`mem::replace(self.head_mut(), head)` reads the old value through `head_mut`
and writes the new one through the same reference. -/
def legacy_replace_head (t : List α) (v : α) : Except String (α × List α) := do
  let old ← legacy_head_mut t
  let new ← legacy_head_mut_set t v
  return (old, new)

/-- The identifier/arity table passed to the legacy `impl_tuple!` macro. -/
def legacyTable : List (Ident × Nat) :=
  [("B", 50), ("C", 49), ("D", 48), ("E", 47), ("F", 46), ("G", 45),
   ("H", 44), ("I", 43), ("J", 42), ("K", 41), ("L", 40), ("M", 39),
   ("N", 38), ("O", 37), ("P", 36), ("Q", 35), ("R", 34), ("S", 33),
   ("T", 32), ("U", 31), ("V", 30), ("W", 29), ("X", 28), ("Y", 27),
   ("Z", 26), ("Α", 25), ("Β", 24), ("Γ", 23), ("Δ", 22), ("Ε", 21),
   ("Ζ", 20), ("Η", 19), ("Θ", 18), ("Ι", 17), ("Κ", 16), ("Λ", 15),
   ("Μ", 14), ("Ν", 13), ("Ξ", 12), ("Ο", 11), ("Π", 10), ("Ρ", 9),
   ("Σ", 8), ("Τ", 7), ("Υ", 6), ("Φ", 5), ("Χ", 4), ("Ψ", 3)]

/-- The (component list, arity literal) shape of each impl generated by the
legacy `impl_tuple!`/`impl_tuple_recursion!` macros: for the entry
`$t0 | $arity0` followed by `$($tn | $arityn)*`, the impl target is
`(A, $t0, $($tn,)* Ω)` with `ARITY = $arity0`; both macros emit the same
shape for their head entry and recurse on the remaining entries. -/
def impl_tuple_recursion_shapes : List (Ident × Nat) → List (List Ident × Nat)
  | [] => []
  | (t0, a0) :: rest =>
    impl_tuple_recursion_shapes rest ++
      [("A" :: t0 :: rest.map Prod.fst ++ ["Ω"], a0)]

/-- All impl shapes generated by the legacy macro invocation. -/
def legacy_macro_shapes : List (List Ident × Nat) :=
  impl_tuple_recursion_shapes legacyTable

/-- The hand-written legacy impls: `()` with `ARITY = 0`, `(A,)` with
`ARITY = 1`, `(A, Ω)` with `ARITY = 2`. -/
def legacy_hand_shapes : List (List Ident × Nat) :=
  [([], 0), (["A"], 1), (["A", "Ω"], 2)]

/-! ## `TupleInto` (`tupl/src/lib.rs`) -/

/-- `TupleInto::tuple_into` with the per-component conversion `Into` taken as
`f`: the `()` impl returns the empty iterator, the blanket impl for non-empty
tuples truncates the tail, recurses on the remaining tuple and chains the
converted tail (`tuple.tuple_into().chain(once(tail.into()))`). -/
def tuple_into (f : β → γ) : List β → List γ
  | [] => []
  | [a] => tuple_into f [] ++ [f a]
  | a :: b :: rest =>
    tuple_into f ((a :: b :: rest).dropLast) ++
      [f ((b :: rest).getLast (List.cons_ne_nil b rest))]
termination_by t => t.length
decreasing_by
  all_goals simp

/-! ## Helper lemmas -/

theorem getLast_concat_any (l : List α) (a : α) (h : l ++ [a] ≠ []) :
    (l ++ [a]).getLast h = a :=
  List.getLast_concat l

theorem tuple_into_concat (f : β → γ) (l : List β) (a : β) :
    tuple_into f (l ++ [a]) = tuple_into f l ++ [f a] := by
  match l with
  | [] => simp [tuple_into]
  | [b] => simp [tuple_into]
  | b :: c :: rs =>
    show tuple_into f (b :: c :: (rs ++ [a])) = _
    rw [tuple_into]
    have hdrop : (b :: c :: (rs ++ [a])).dropLast = b :: c :: rs := by
      rw [show b :: c :: (rs ++ [a]) = (b :: c :: rs) ++ [a] by simp]
      exact List.dropLast_concat
    have hlast : (c :: (rs ++ [a])).getLast (List.cons_ne_nil c (rs ++ [a])) = a :=
      getLast_concat_any (c :: rs) a (by simp)
    rw [hdrop, hlast]

theorem tuple_into_eq_map (f : β → γ) (t : List β) :
    tuple_into f t = t.map f := by
  induction t using List.reverseRecOn with
  | nil => simp [tuple_into]
  | append_singleton l a ih => rw [tuple_into_concat, ih, List.map_append]; rfl

theorem length_modernIdents_take (K : Nat) (h : K ≤ MAX_ARITY) :
    (modernIdents.take K).length = K := by
  have h32 : K ≤ 32 := h
  simp [modernIdents, MAX_ARITY]
  omega

theorem length_utilIdents_take (K : Nat) (h : K ≤ UTIL_MAX_ARITY) :
    (utilIdents.take K).length = K := by
  have h50 : K ≤ 50 := h
  simp [utilIdents, UTIL_MAX_ARITY]
  omega

/-! ## Claim theorems -/

/-- C3: for every K in 0..MAX_ARITY the modern generator's tuple type of
arity K reports exactly K as `Tuple::ARITY`; in the legacy crate the
hand-written arities 0, 1, 2 and the macro-generated arities 3 through 50
each carry an arity literal equal to the actual number of components of the
tuple type it is attached to, and the macro table covers exactly the
arities 3..50. -/
theorem arity_reports_exactly_K :
    (∀ K, K < MAX_ARITY → (impl_tuple (modernIdents.take K)).ARITY = K) ∧
    legacy_hand_shapes.all (fun p => p.2 == p.1.length) = true ∧
    legacy_macro_shapes.all (fun p => p.2 == p.1.length) = true ∧
    legacy_macro_shapes.map Prod.snd = List.range' 3 48 := by
  refine ⟨?_, by rfl, by rfl, by rfl⟩
  intro K hK
  show (modernIdents.take K).length = K
  exact length_modernIdents_take K (Nat.le_of_lt hK)

/-- C4: the modern capped generators emit a `GrowableTuple` impl for every
arity K with 0 ≤ K < MAX_ARITY and no `GrowableTuple` impl at
K = MAX_ARITY, so growing a maximum-arity tuple is statically unavailable
instead of a runtime panic; this holds for both the `traits.rs` generator
(cap 32) and the `util.rs` generator (cap 50). -/
theorem growable_capped_at_max_arity :
    (∀ K, K < MAX_ARITY → impl_growable (modernIdents.take K) = some ()) ∧
    impl_growable (modernIdents.take MAX_ARITY) = none ∧
    (∀ K, K < UTIL_MAX_ARITY → util_impl_growable (utilIdents.take K) = some ()) ∧
    util_impl_growable (utilIdents.take UTIL_MAX_ARITY) = none := by
  refine ⟨?_, by rfl, ?_, by rfl⟩
  · intro K hK
    unfold impl_growable
    rw [length_modernIdents_take K (Nat.le_of_lt hK), if_neg (by omega)]
  · intro K hK
    unfold util_impl_growable
    rw [length_utilIdents_take K (Nat.le_of_lt hK), if_neg (by omega)]

/-- C5: in the legacy crate, `append` and `prepend` on a tuple already at
arity 50 panic unconditionally with "reached maximum tuple arity", and the
associated types `Append<T>` and `Prepend<T>` at that arity are the
`Infallible` sentinel rather than a valid larger tuple. -/
theorem legacy_max_arity_panics {α : Type} (t : List α) (v : α)
    (ht : t.length = LEGACY_MAX_ARITY) (c : List Ident)
    (hc : c.length = LEGACY_MAX_ARITY) (T : Ident) :
    legacy_append t v = .error "reached maximum tuple arity" ∧
    legacy_prepend t v = .error "reached maximum tuple arity" ∧
    legacy_tyAppend (.tuple c) T = .infallible ∧
    legacy_tyPrepend (.tuple c) T = .infallible := by
  refine ⟨?_, ?_, ?_, ?_⟩ <;>
    simp [legacy_append, legacy_prepend, legacy_tyAppend, legacy_tyPrepend, ht, hc]

/-- C5 witness: a concrete arity-50 tuple. -/
theorem legacy_max_arity_panics_witness :
    legacy_append (List.replicate 50 (0 : Nat)) 7
        = .error "reached maximum tuple arity" ∧
    legacy_prepend (List.replicate 50 (0 : Nat)) 7
        = .error "reached maximum tuple arity" ∧
    legacy_tyAppend (.tuple (List.replicate 50 "A")) "X" = .infallible ∧
    legacy_tyPrepend (.tuple (List.replicate 50 "A")) "X" = .infallible :=
  legacy_max_arity_panics (List.replicate 50 (0 : Nat)) 7 (by decide)
    (List.replicate 50 "A") (by simp [LEGACY_MAX_ARITY]) "X"

/-- C6: in the legacy crate, every `head`, `head_mut`, `tail`, `tail_mut`,
`truncate_head` and `truncate_tail` call on the zero-arity tuple `()` panics
unconditionally. -/
theorem legacy_empty_access_panics (α : Type) :
    legacy_head ([] : List α) = .error "tried to get the head of an empty tuple" ∧
    legacy_head_mut ([] : List α) = .error "tried to get the head of an empty tuple" ∧
    legacy_tail ([] : List α) = .error "tried to get the tail of an empty tuple" ∧
    legacy_tail_mut ([] : List α) = .error "tried to get the tail of an empty tuple" ∧
    legacy_truncate_head ([] : List α) = .error "tried to truncate empty tuple" ∧
    legacy_truncate_tail ([] : List α) = .error "tried to truncate empty tuple" :=
  ⟨rfl, rfl, rfl, rfl, rfl, rfl⟩

/-- C8: for every sized tuple type of arity 0 to 32 and every value of that
type, the runtime `DynTuple::arity` body returns the same number as the
compile-time constant `Tuple::ARITY`, which is the value's length. -/
theorem dyn_and_static_arity_agree {α : Type} (t : List α)
    (ht : t.length ≤ MAX_ARITY) :
    (impl_tuple (modernIdents.take t.length)).dyn_arity
      = (impl_tuple (modernIdents.take t.length)).ARITY ∧
    (impl_tuple (modernIdents.take t.length)).ARITY = t.length :=
  ⟨rfl, length_modernIdents_take t.length ht⟩

/-- C8 witness: the arity-3 tuple `(1, 2, 3)`. -/
theorem dyn_and_static_arity_agree_witness :
    (impl_tuple (modernIdents.take ([1, 2, 3] : List Nat).length)).dyn_arity
      = (impl_tuple (modernIdents.take ([1, 2, 3] : List Nat).length)).ARITY ∧
    (impl_tuple (modernIdents.take ([1, 2, 3] : List Nat).length)).ARITY
      = ([1, 2, 3] : List Nat).length :=
  dyn_and_static_arity_agree [1, 2, 3] (by decide)

/-- C9: for every tuple whose components all convert into `γ` (conversion
`f`), `tuple_into` yields exactly one converted item per component in
positional order, i.e. the map of `f` over the components, and the empty
tuple yields the empty iterator. -/
theorem tuple_into_yields_components_in_order {β γ : Type} (f : β → γ)
    (t : List β) :
    tuple_into f t = t.map f ∧
    (tuple_into f t).length = t.length ∧
    tuple_into f ([] : List β) = [] := by
  refine ⟨tuple_into_eq_map f t, ?_, by simp [tuple_into]⟩
  rw [tuple_into_eq_map f t, List.length_map]

/-- C10: in the legacy crate, `replace_head(new)` on a non-empty tuple
returns the previous head value, and afterwards the head equals `new` while
every other component is unchanged. -/
theorem legacy_replace_head_spec {α : Type} (t : List α) (hne : t ≠ [])
    (v : α) :
    ∃ old t', legacy_replace_head t v = .ok (old, t') ∧
      t.head? = some old ∧ t'.head? = some v ∧ t'.tail = t.tail := by
  match t with
  | [] => exact absurd rfl hne
  | a :: rest =>
    exact ⟨a, v :: rest, rfl, rfl, rfl, rfl⟩

/-- C1: for every non-empty tuple value, `truncate_head` followed by
prepending the returned head onto the returned remainder reconstructs the
original tuple, and `truncate_tail` followed by appending the returned tail
onto the returned remainder reconstructs the original tuple; at the type
level, for every arity with a growable impl, `GrowableTuple::Append<T>` has
`TruncateTail` equal to the original type and `Tail` equal to `T`. -/
theorem truncate_then_grow_roundtrip {α : Type} (t : List α) (hne : t ≠ [])
    (hlen : t.length ≤ MAX_ARITY) (idents : List Ident)
    (hgrow : impl_growable idents = some ()) (T : Ident) :
    (∃ h r, truncate_head t = some (h, r) ∧ prepend r h = t) ∧
    (∃ r tl, truncate_tail t = some (r, tl) ∧ append r tl = t) ∧
    tyTruncateTail (tyAppend idents T) = some idents ∧
    tyTail (tyAppend idents T) = some T := by
  refine ⟨?_, ?_, ?_, ?_⟩
  · match t with
    | [] => exact absurd rfl hne
    | [a] => exact ⟨a, [], rfl, rfl⟩
    | a :: b :: rs => exact ⟨a, b :: rs, rfl, rfl⟩
  · match t with
    | [] => exact absurd rfl hne
    | [a] => exact ⟨[], a, rfl, rfl⟩
    | a :: b :: rs =>
      refine ⟨(a :: b :: rs).dropLast, (b :: rs).getLast (List.cons_ne_nil b rs),
        rfl, ?_⟩
      show (a :: b :: rs).dropLast
          ++ [(b :: rs).getLast (List.cons_ne_nil b rs)] = a :: b :: rs
      exact List.dropLast_concat_getLast (List.cons_ne_nil a (b :: rs))
  · match idents with
    | [] => rfl
    | [x] => rfl
    | x :: y :: rs =>
      show tyTruncateTail (x :: y :: (rs ++ [T])) = some (x :: y :: rs)
      simp only [tyTruncateTail]
      rw [show x :: y :: (rs ++ [T]) = (x :: y :: rs) ++ [T] by simp,
        List.dropLast_concat]
  · match idents with
    | [] => rfl
    | [x] => rfl
    | x :: y :: rs =>
      show tyTail (x :: y :: (rs ++ [T])) = some T
      exact congrArg some (getLast_concat_any (y :: rs) T (by simp))

/-- C1 witness: the tuple `(1, 2, 3)` and the type `(T1, T2)` appended
with `X`. -/
theorem truncate_then_grow_roundtrip_witness :
    (∃ h r, truncate_head ([1, 2, 3] : List Nat) = some (h, r) ∧
      prepend r h = [1, 2, 3]) ∧
    (∃ r tl, truncate_tail ([1, 2, 3] : List Nat) = some (r, tl) ∧
      append r tl = [1, 2, 3]) ∧
    tyTruncateTail (tyAppend ["T1", "T2"] "X") = some ["T1", "T2"] ∧
    tyTail (tyAppend ["T1", "T2"] "X") = some "X" :=
  truncate_then_grow_roundtrip [1, 2, 3] (by decide) (by decide)
    ["T1", "T2"] (by rfl) "X"

/-- C2: for tuples A and B with total arity at most MAX_ARITY, a
`JoinableTuple` impl covering the pair of arities is emitted and
`A.join(B)` is A's components in order followed by B's components in order,
of arity A + B; in particular joining `(1, 2)` with `(3, 4, 5)` yields
`(1, 2, 3, 4, 5)`. -/
theorem join_concatenates {α : Type} (a b : List α)
    (hab : a.length + b.length ≤ MAX_ARITY) :
    (a.length, b.length) ∈ joinable_arity_pairs ∧
    (join a b).length = a.length + b.length ∧
    join a b = a ++ b ∧
    join [1, 2] [3, 4, 5] = ([1, 2, 3, 4, 5] : List Nat) := by
  refine ⟨?_, by simp [join], rfl, rfl⟩
  unfold joinable_arity_pairs
  rw [List.mem_flatMap]
  refine ⟨a.length + b.length, ?_, ?_⟩
  · rw [List.mem_range]
    omega
  · rw [List.mem_map]
    refine ⟨((modernIdents.take (a.length + b.length)).take a.length,
      (modernIdents.take (a.length + b.length)).drop a.length), ?_, ?_⟩
    · unfold impl_joinable_splits
      rw [List.mem_map]
      refine ⟨a.length, ?_, rfl⟩
      rw [List.mem_range, length_modernIdents_take _ hab]
      omega
    · have hk : (modernIdents.take (a.length + b.length)).length
          = a.length + b.length := length_modernIdents_take _ hab
      dsimp only
      rw [Prod.mk.injEq]
      refine ⟨?_, ?_⟩
      · rw [List.length_take, hk]
        omega
      · rw [List.length_drop, hk]
        omega

/-- C2 witness: joining `(1, 2)` with `(3, 4, 5)`. -/
theorem join_concatenates_witness :
    (([1, 2] : List Nat).length, ([3, 4, 5] : List Nat).length)
        ∈ joinable_arity_pairs ∧
    (join ([1, 2] : List Nat) [3, 4, 5]).length
        = ([1, 2] : List Nat).length + ([3, 4, 5] : List Nat).length ∧
    join ([1, 2] : List Nat) [3, 4, 5] = [1, 2] ++ [3, 4, 5] ∧
    join [1, 2] [3, 4, 5] = ([1, 2, 3, 4, 5] : List Nat) :=
  join_concatenates [1, 2] [3, 4, 5] (by decide)

/-- C7: for every tuple of arity 1 to MAX_ARITY and every position P below
the arity, `index_ref`, `index_mut` and `into_index` return exactly the
component at position P (the value manual destructuring yields), and no
`IndexableTuple` impl is emitted for positions at or above the arity. -/
theorem indexable_returns_component_at_position {α : Type} (t : List α)
    (P : Nat) (h1 : 1 ≤ t.length) (h2 : t.length ≤ MAX_ARITY) :
    (∀ hP : P < t.length,
      index_ref t P = some (t.get ⟨P, hP⟩) ∧
      index_mut t P = some (t.get ⟨P, hP⟩) ∧
      into_index t P = some (t.get ⟨P, hP⟩)) ∧
    (t.length ≤ P → P ∉ indexable_positions (modernIdents.take t.length)) := by
  constructor
  · intro hP
    refine ⟨?_, ?_, ?_⟩ <;>
      simp [index_ref, index_mut, into_index, List.getElem?_eq_getElem hP]
  · intro hge hmem
    unfold indexable_positions at hmem
    rw [List.mem_range, length_modernIdents_take _ h2] at hmem
    omega

/-- C7 witness: position 1 of the tuple `(10, 20, 30)`. -/
theorem indexable_returns_component_at_position_witness :
    (∀ hP : 1 < ([10, 20, 30] : List Nat).length,
      index_ref ([10, 20, 30] : List Nat) 1
          = some (([10, 20, 30] : List Nat).get ⟨1, hP⟩) ∧
      index_mut ([10, 20, 30] : List Nat) 1
          = some (([10, 20, 30] : List Nat).get ⟨1, hP⟩) ∧
      into_index ([10, 20, 30] : List Nat) 1
          = some (([10, 20, 30] : List Nat).get ⟨1, hP⟩)) ∧
    (([10, 20, 30] : List Nat).length ≤ 1 →
      1 ∉ indexable_positions
        (modernIdents.take ([10, 20, 30] : List Nat).length)) :=
  indexable_returns_component_at_position [10, 20, 30] 1 (by decide) (by decide)

/-- C10 witness: replacing the head of `(1, 2, 3)` with `9`. -/
theorem legacy_replace_head_spec_witness :
    ∃ old t', legacy_replace_head ([1, 2, 3] : List Nat) 9 = .ok (old, t') ∧
      ([1, 2, 3] : List Nat).head? = some old ∧ t'.head? = some 9 ∧
      t'.tail = ([1, 2, 3] : List Nat).tail :=
  legacy_replace_head_spec [1, 2, 3] (by decide) 9

end Tupl
